import Mathlib

/-!
Verification of the expression-evaluation and graph-sampling core of the
AI-Math-Studio repository (`safeEvaluate` / `generateGraphPoints` in
`src/utils/math.ts`).

The two functions are TypeScript.  `safeEvaluate` builds a host-language
function with `new Function(...keys, mathFormula)` where `mathFormula`
destructures a whitelist of `Math` members and then `return <formula>;`,
calls it with the binding values, and converts every fault and every
non-finite-number / object result into the sentinel string `"Error"`.
`generateGraphPoints` sweeps one designated variable over `steps + 1`
linearly interpolated sample positions and collects the finite numeric
results.

The embedding below models the host (JavaScript) semantics that the source
relies on, for the fragment of the language these utilities are exercised
on in this repository:

* numbers are modelled as exact rationals extended with `+Infinity`,
  `-Infinity` and `NaN` (`JSNum`).  IEEE-754 rounding and the negative
  zero are not modelled; every concrete value appearing in the claims is
  exactly representable and every operation on them is exact, so the model
  agrees with the host on all inputs used below;
* expression texts are tokenized and parsed into a small AST covering
  numeric literals, identifiers, `null` / `true` / `false`, unary minus,
  `+ - * /`, the bitwise-XOR operator `^` (which the host applies to
  expressions such as `x^2`), the `<` comparison and array literals, with
  the host's operator precedence (`^` below `<` below `+ -` below `* /`);
  strings outside this fragment (function calls, strings, objects, ...) are
  treated as unparseable and yield the construction fault that the
  `try/catch` then converts to `"Error"`;
* `new Function(...keys, body)` is modelled faithfully for parameter lists
  built from identifier characters and commas: the keys are joined with
  `,`, the joined text is re-parsed as a parameter list (so a key such as
  `"a,b"` contributes two parameters and a trailing empty key contributes
  none), parameters are bound to the argument values positionally with the
  last duplicate winning, and a parameter that collides with one of the
  destructured `Math` names faults the construction (the host raises a
  redeclaration `SyntaxError`);
* arithmetic on non-numeric operands (host coercion) is outside the
  modelled fragment and is mapped to a fault; no claim below depends on a
  coerced evaluation succeeding.
-/

/-- Model of a JavaScript number: an exact rational, or one of the three
special values `+Infinity`, `-Infinity`, `NaN`.  The sign of zero is not
tracked. -/
inductive JSNum where
  | fin (q : ℚ)
  | posInf
  | negInf
  | nan
deriving DecidableEq, Repr

namespace JSNum

/-- Model of the host `isFinite` test on a number. -/
def isFinite : JSNum → Bool
  | fin _ => true
  | _ => false

/-- Host addition on numbers: opposite infinities and `NaN` operands give
`NaN`, an infinity absorbs finite summands. -/
def jadd : JSNum → JSNum → JSNum
  | fin a, fin b => fin (a + b)
  | fin _, posInf => posInf
  | fin _, negInf => negInf
  | posInf, fin _ => posInf
  | negInf, fin _ => negInf
  | posInf, posInf => posInf
  | negInf, negInf => negInf
  | posInf, negInf => nan
  | negInf, posInf => nan
  | nan, _ => nan
  | _, nan => nan

/-- Host unary minus on numbers. -/
def jneg : JSNum → JSNum
  | fin a => fin (-a)
  | posInf => negInf
  | negInf => posInf
  | nan => nan

/-- Host subtraction on numbers, `a - b = a + (-b)`. -/
def jsub (a b : JSNum) : JSNum := jadd a (jneg b)

/-- Host multiplication on numbers: zero times an infinity is `NaN`,
otherwise infinities carry the sign of the other factor. -/
def jmul : JSNum → JSNum → JSNum
  | fin a, fin b => fin (a * b)
  | fin a, posInf => if a = 0 then nan else if 0 < a then posInf else negInf
  | fin a, negInf => if a = 0 then nan else if 0 < a then negInf else posInf
  | posInf, fin b => if b = 0 then nan else if 0 < b then posInf else negInf
  | negInf, fin b => if b = 0 then nan else if 0 < b then negInf else posInf
  | posInf, posInf => posInf
  | negInf, negInf => posInf
  | posInf, negInf => negInf
  | negInf, posInf => negInf
  | nan, _ => nan
  | _, nan => nan

/-- Host division on numbers: a nonzero finite dividend over zero gives a
signed infinity, `0 / 0` gives `NaN`, a finite dividend over an infinity
gives zero, an infinity over an infinity gives `NaN`. -/
def jdiv : JSNum → JSNum → JSNum
  | fin a, fin b =>
      if b = 0 then (if a = 0 then nan else if 0 < a then posInf else negInf)
      else fin (a / b)
  | fin _, posInf => fin 0
  | fin _, negInf => fin 0
  | posInf, fin b => if 0 ≤ b then posInf else negInf
  | negInf, fin b => if 0 ≤ b then negInf else posInf
  | posInf, posInf => nan
  | posInf, negInf => nan
  | negInf, posInf => nan
  | negInf, negInf => nan
  | nan, _ => nan
  | _, nan => nan

/-- Host `ToInt32`: `NaN` and the infinities go to `0`, a finite value is
truncated toward zero and reduced into the signed 32-bit range. -/
def toInt32 : JSNum → ℤ
  | fin q =>
      let t : ℤ := if 0 ≤ q then ⌊q⌋ else -⌊-q⌋
      let m : ℤ := t % (2 ^ 32)
      if m < 2 ^ 31 then m else m - 2 ^ 32
  | _ => 0

/-- Two's-complement 32-bit XOR used by the host `^` operator: both
operands pass through `ToInt32`, the unsigned representatives are XORed
bitwise and the result is reinterpreted as signed. -/
def jxor (a b : JSNum) : JSNum :=
  let ua : ℕ := ((toInt32 a) % (2 ^ 32)).toNat
  let ub : ℕ := ((toInt32 b) % (2 ^ 32)).toNat
  let u : ℕ := Nat.xor ua ub
  fin (if u < 2 ^ 31 then (u : ℚ) else (u : ℚ) - 2 ^ 32)

/-- Host `<` comparison on numbers: any `NaN` operand gives `false`. -/
def jltB : JSNum → JSNum → Bool
  | fin a, fin b => decide (a < b)
  | fin _, posInf => true
  | fin _, negInf => false
  | posInf, _ => false
  | negInf, negInf => false
  | negInf, _ => true
  | nan, _ => false
  | _, nan => false

end JSNum

/-- Model of the JavaScript values the evaluated formula can produce inside
this core: numbers, strings, booleans, `null`, `undefined`, arrays, the
whitelisted `Math` functions (values of `typeof` `"function"`), and the
irrational `Math` constants `PI` / `E` (finite numbers whose exact value
the rational model leaves abstract). -/
inductive JSValue where
  | num (n : JSNum)
  | str (s : String)
  | bool (b : Bool)
  | null
  | undef
  | arr (elems : List JSValue)
  | mathFun (name : String)
  | mathConst (name : String)
deriving Repr

namespace JSValue

mutual

/-- Boolean equality on modelled values (the `deriving` handler does not
support the nested `List`). -/
def beq : JSValue → JSValue → Bool
  | num a, num b => a == b
  | str a, str b => a == b
  | bool a, bool b => a == b
  | null, null => true
  | undef, undef => true
  | arr a, arr b => beqList a b
  | mathFun a, mathFun b => a == b
  | mathConst a, mathConst b => a == b
  | _, _ => false

/-- Boolean equality on lists of modelled values. -/
def beqList : List JSValue → List JSValue → Bool
  | [], [] => true
  | x :: xs, y :: ys => beq x y && beqList xs ys
  | _, _ => false

end

mutual

theorem beq_iff : ∀ a b : JSValue, beq a b = true ↔ a = b
  | num a, num b => by simp [beq]
  | num _, str _ | num _, bool _ | num _, null | num _, undef | num _, arr _
  | num _, mathFun _ | num _, mathConst _ => by simp [beq]
  | str _, num _ => by simp [beq]
  | str a, str b => by simp [beq]
  | str _, bool _ | str _, null | str _, undef | str _, arr _
  | str _, mathFun _ | str _, mathConst _ => by simp [beq]
  | bool _, num _ | bool _, str _ => by simp [beq]
  | bool a, bool b => by simp [beq]
  | bool _, null | bool _, undef | bool _, arr _
  | bool _, mathFun _ | bool _, mathConst _ => by simp [beq]
  | null, num _ | null, str _ | null, bool _ => by simp [beq]
  | null, null => by simp [beq]
  | null, undef | null, arr _ | null, mathFun _ | null, mathConst _ => by simp [beq]
  | undef, num _ | undef, str _ | undef, bool _ | undef, null => by simp [beq]
  | undef, undef => by simp [beq]
  | undef, arr _ | undef, mathFun _ | undef, mathConst _ => by simp [beq]
  | arr _, num _ | arr _, str _ | arr _, bool _ | arr _, null | arr _, undef => by
      simp [beq]
  | arr a, arr b => by
      have h := beqList_iff a b
      simp [beq, h]
  | arr _, mathFun _ | arr _, mathConst _ => by simp [beq]
  | mathFun _, num _ | mathFun _, str _ | mathFun _, bool _ | mathFun _, null
  | mathFun _, undef | mathFun _, arr _ => by simp [beq]
  | mathFun a, mathFun b => by simp [beq]
  | mathFun _, mathConst _ => by simp [beq]
  | mathConst _, num _ | mathConst _, str _ | mathConst _, bool _ | mathConst _, null
  | mathConst _, undef | mathConst _, arr _ | mathConst _, mathFun _ => by simp [beq]
  | mathConst a, mathConst b => by simp [beq]

theorem beqList_iff : ∀ a b : List JSValue, beqList a b = true ↔ a = b
  | [], [] => by simp [beqList]
  | [], _ :: _ => by simp [beqList]
  | _ :: _, [] => by simp [beqList]
  | x :: xs, y :: ys => by
      have h1 := beq_iff x y
      have h2 := beqList_iff xs ys
      simp [beqList, h1, h2]

end

instance : DecidableEq JSValue := fun a b =>
  decidable_of_iff (beq a b = true) (beq_iff a b)

instance : DecidableEq (Except Unit JSValue) := fun a b =>
  match a, b with
  | Except.error e1, Except.error e2 => isTrue (by cases e1; cases e2; rfl)
  | Except.ok v1, Except.ok v2 =>
      if h : v1 = v2 then isTrue (by rw [h])
      else isFalse (by intro he; injection he; contradiction)
  | Except.error _, Except.ok _ => isFalse (by intro h; exact Except.noConfusion h)
  | Except.ok _, Except.error _ => isFalse (by intro h; exact Except.noConfusion h)

/-- Model of the host `typeof` operator on the modelled values. -/
def typeofStr : JSValue → String
  | num _ => "number"
  | str _ => "string"
  | bool _ => "boolean"
  | null => "object"
  | undef => "undefined"
  | arr _ => "object"
  | mathFun _ => "function"
  | mathConst _ => "number"

/-- The test `typeof result === 'object' && result !== null` from line 16
of the source. -/
def isObjectNonNull (v : JSValue) : Bool :=
  (typeofStr v == "object") && !(v == null)

/-- The test `typeof result === 'number' && (!isFinite(result) ||
isNaN(result))` from line 17 of the source; `Math.PI` and `Math.E` are
finite, so a `mathConst` passes. -/
def isNonFiniteNumber : JSValue → Bool
  | num n => !n.isFinite
  | _ => false

end JSValue


/-- Characters that may start a (modelled, ASCII) JavaScript identifier:
letters, `_` and `$`. -/
def isIdentStart (c : Char) : Bool :=
  (('a' ≤ c && c ≤ 'z') || ('A' ≤ c && c ≤ 'Z') || c == '_' || c == '$')

/-- Characters that may continue a (modelled, ASCII) JavaScript
identifier. -/
def isIdentChar (c : Char) : Bool :=
  isIdentStart c || ('0' ≤ c && c ≤ '9')

/-- Decimal digit test. -/
def isDigit (c : Char) : Bool := '0' ≤ c && c ≤ '9'

/-- Words that the host language reserves and therefore rejects as
parameter names (sloppy mode, as produced by `new Function`). -/
def reservedWords : List String :=
  ["break", "case", "catch", "class", "const", "continue", "debugger",
   "default", "delete", "do", "else", "enum", "export", "extends", "false",
   "finally", "for", "function", "if", "import", "in", "instanceof", "new",
   "null", "return", "super", "switch", "this", "throw", "true", "try",
   "typeof", "var", "void", "while", "with"]

/-- Validity of a character list as a single host-language identifier:
nonempty, an identifier-start character followed by identifier characters,
and not a reserved word. -/
def isValidIdentChars (cs : List Char) : Bool :=
  match cs with
  | [] => false
  | c :: rest =>
      isIdentStart c && rest.all isIdentChar && !(reservedWords.contains ⟨cs⟩)

/-- Validity of a string as a host-language identifier (ASCII fragment). -/
def isValidIdentifierName (s : String) : Bool := isValidIdentChars s.data

/-- The names destructured from `Math` on line 8 of the source, in source
order. -/
def mathNames : List String :=
  ["sin", "cos", "tan", "asin", "acos", "atan", "PI", "E", "pow", "sqrt",
   "abs", "log", "exp", "floor", "ceil", "round", "min", "max"]

/-- The `Math` names that are functions (every whitelisted name except the
numeric constants `PI` and `E`). -/
def mathFunNames : List String :=
  ["sin", "cos", "tan", "asin", "acos", "atan", "pow", "sqrt",
   "abs", "log", "exp", "floor", "ceil", "round", "min", "max"]

/-- Splitting a character list at every comma; always returns at least one
(possibly empty) segment, mirroring how the host scanner cuts the
`new Function` parameter text into individual parameters. -/
def splitArgs : List Char → List (List Char)
  | [] => [[]]
  | c :: cs =>
      if c = ',' then [] :: splitArgs cs
      else
        match splitArgs cs with
        | s :: ss => (c :: s) :: ss
        | [] => [[c]]

/-- Joining key texts with commas, exactly as
`new Function(...keys, body)` assembles its parameter list. -/
def joinKeys : List (List Char) → List Char
  | [] => []
  | [k] => k
  | k :: ks => k ++ ',' :: joinKeys ks

/-- Parse of the assembled parameter text: a comma-separated list of valid
identifiers, where a single trailing comma (equivalently a final empty
segment) is permitted and the empty text declares no parameter at all.
Returns `none` exactly when the host constructor would raise a
`SyntaxError` for a parameter text built from identifier characters and
commas. -/
def parseParamChars (joined : List Char) : Option (List (List Char)) :=
  if joined = [] then some []
  else
    let segs := splitArgs joined
    let segs2 := if segs.getLast? = some [] then segs.dropLast else segs
    if segs2.all isValidIdentChars then some segs2 else none

/-- Tokens of the modelled expression fragment. -/
inductive Tok where
  | num (q : ℚ)
  | ident (cs : List Char)
  | kwNull
  | kwTrue
  | kwFalse
  | plus
  | minus
  | star
  | slash
  | caret
  | less
  | lparen
  | rparen
  | lbracket
  | rbracket
  | comma
deriving DecidableEq, Repr

/-- Numeric value of a digit character. -/
def digitVal (c : Char) : ℕ := c.toNat - '0'.toNat

/-- Accumulating decimal value of a digit list. -/
def natOfDigits (ds : List Char) : ℕ :=
  ds.foldl (fun acc c => acc * 10 + digitVal c) 0

/-- Rational value of an integer-part / fraction-part digit pair, as the
host reads decimal number literals. -/
def litValue (intPart fracPart : List Char) : ℚ :=
  (natOfDigits intPart : ℚ) + (natOfDigits fracPart : ℚ) / (10 ^ fracPart.length : ℚ)

/-- Tokenizer for the modelled fragment, driven by fuel (each step consumes
at least one character, so `cs.length + 1` fuel always suffices).  A
character outside the fragment makes the whole text unparseable, which the
model maps to the host `SyntaxError`. -/
def tokenizeAux : ℕ → List Char → Option (List Tok)
  | 0, _ => none
  | _, [] => some []
  | Nat.succ fuel, c :: cs =>
      if c = ' ' || c = '\t' then tokenizeAux fuel cs
      else if isDigit c then
        let intPart := c :: cs.takeWhile isDigit
        let rest1 := cs.dropWhile isDigit
        match rest1 with
        | '.' :: cs2 =>
            let fracPart := cs2.takeWhile isDigit
            let rest2 := cs2.dropWhile isDigit
            if fracPart = [] then none
            else do
              let ts ← tokenizeAux fuel rest2
              pure (Tok.num (litValue intPart fracPart) :: ts)
        | _ => do
            let ts ← tokenizeAux fuel rest1
            pure (Tok.num (litValue intPart []) :: ts)
      else if isIdentStart c then
        let name := c :: cs.takeWhile isIdentChar
        let rest1 := cs.dropWhile isIdentChar
        do
          let ts ← tokenizeAux fuel rest1
          let tok :=
            if name = "null".data then Tok.kwNull
            else if name = "true".data then Tok.kwTrue
            else if name = "false".data then Tok.kwFalse
            else Tok.ident name
          pure (tok :: ts)
      else do
        let tok ←
          if c = '+' then some Tok.plus
          else if c = '-' then some Tok.minus
          else if c = '*' then some Tok.star
          else if c = '/' then some Tok.slash
          else if c = '^' then some Tok.caret
          else if c = '<' then some Tok.less
          else if c = '(' then some Tok.lparen
          else if c = ')' then some Tok.rparen
          else if c = '[' then some Tok.lbracket
          else if c = ']' then some Tok.rbracket
          else if c = ',' then some Tok.comma
          else none
        let ts ← tokenizeAux fuel cs
        pure (tok :: ts)

/-- Tokenizing an expression text. -/
def tokenize (cs : List Char) : Option (List Tok) :=
  tokenizeAux (cs.length + 1) cs

/-- Abstract syntax of the modelled expression fragment, with the host
operator meanings: `xor` is the 32-bit bitwise `^`, `less` is `<`. -/
inductive Expr where
  | lit (q : ℚ)
  | boolLit (b : Bool)
  | nullLit
  | ident (name : List Char)
  | neg (e : Expr)
  | add (a b : Expr)
  | sub (a b : Expr)
  | mul (a b : Expr)
  | div (a b : Expr)
  | xor (a b : Expr)
  | less (a b : Expr)
  | arrLit (elems : List Expr)
deriving Repr

mutual

/-- Fuel-driven recursive-descent level for `^` (the lowest-precedence
operator in the fragment, as in the host). -/
def parseXor : ℕ → List Tok → Option (Expr × List Tok)
  | 0, _ => none
  | Nat.succ fuel, ts => do
      let (a, rest) ← parseRel fuel ts
      parseXorRest fuel a rest

/-- Left-associated continuation of the `^` level. -/
def parseXorRest : ℕ → Expr → List Tok → Option (Expr × List Tok)
  | 0, _, _ => none
  | Nat.succ fuel, a, ts =>
      match ts with
      | Tok.caret :: ts2 => do
          let (b, rest) ← parseRel fuel ts2
          parseXorRest fuel (Expr.xor a b) rest
      | _ => some (a, ts)

/-- Level for the `<` comparison. -/
def parseRel : ℕ → List Tok → Option (Expr × List Tok)
  | 0, _ => none
  | Nat.succ fuel, ts => do
      let (a, rest) ← parseAdd fuel ts
      parseRelRest fuel a rest

/-- Left-associated continuation of the `<` level. -/
def parseRelRest : ℕ → Expr → List Tok → Option (Expr × List Tok)
  | 0, _, _ => none
  | Nat.succ fuel, a, ts =>
      match ts with
      | Tok.less :: ts2 => do
          let (b, rest) ← parseAdd fuel ts2
          parseRelRest fuel (Expr.less a b) rest
      | _ => some (a, ts)

/-- Level for `+` and `-`. -/
def parseAdd : ℕ → List Tok → Option (Expr × List Tok)
  | 0, _ => none
  | Nat.succ fuel, ts => do
      let (a, rest) ← parseMul fuel ts
      parseAddRest fuel a rest

/-- Left-associated continuation of the `+` / `-` level. -/
def parseAddRest : ℕ → Expr → List Tok → Option (Expr × List Tok)
  | 0, _, _ => none
  | Nat.succ fuel, a, ts =>
      match ts with
      | Tok.plus :: ts2 => do
          let (b, rest) ← parseMul fuel ts2
          parseAddRest fuel (Expr.add a b) rest
      | Tok.minus :: ts2 => do
          let (b, rest) ← parseMul fuel ts2
          parseAddRest fuel (Expr.sub a b) rest
      | _ => some (a, ts)

/-- Level for `*` and `/`. -/
def parseMul : ℕ → List Tok → Option (Expr × List Tok)
  | 0, _ => none
  | Nat.succ fuel, ts => do
      let (a, rest) ← parseUnary fuel ts
      parseMulRest fuel a rest

/-- Left-associated continuation of the `*` / `/` level. -/
def parseMulRest : ℕ → Expr → List Tok → Option (Expr × List Tok)
  | 0, _, _ => none
  | Nat.succ fuel, a, ts =>
      match ts with
      | Tok.star :: ts2 => do
          let (b, rest) ← parseUnary fuel ts2
          parseMulRest fuel (Expr.mul a b) rest
      | Tok.slash :: ts2 => do
          let (b, rest) ← parseUnary fuel ts2
          parseMulRest fuel (Expr.div a b) rest
      | _ => some (a, ts)

/-- Unary-minus level. -/
def parseUnary : ℕ → List Tok → Option (Expr × List Tok)
  | 0, _ => none
  | Nat.succ fuel, ts =>
      match ts with
      | Tok.minus :: ts2 => do
          let (e, rest) ← parseUnary fuel ts2
          pure (Expr.neg e, rest)
      | _ => parsePrimary fuel ts

/-- Primary level: literals, identifiers, parenthesized expressions and
array literals. -/
def parsePrimary : ℕ → List Tok → Option (Expr × List Tok)
  | 0, _ => none
  | Nat.succ fuel, ts =>
      match ts with
      | Tok.num q :: rest => some (Expr.lit q, rest)
      | Tok.ident n :: rest => some (Expr.ident n, rest)
      | Tok.kwNull :: rest => some (Expr.nullLit, rest)
      | Tok.kwTrue :: rest => some (Expr.boolLit true, rest)
      | Tok.kwFalse :: rest => some (Expr.boolLit false, rest)
      | Tok.lparen :: rest => do
          let (e, rest2) ← parseXor fuel rest
          match rest2 with
          | Tok.rparen :: rest3 => some (e, rest3)
          | _ => none
      | Tok.lbracket :: rest =>
          match rest with
          | Tok.rbracket :: rest2 => some (Expr.arrLit [], rest2)
          | _ => do
              let (e, rest2) ← parseXor fuel rest
              parseArrRest fuel [e] rest2
      | _ => none

/-- Continuation of an array literal after its first element. -/
def parseArrRest : ℕ → List Expr → List Tok → Option (Expr × List Tok)
  | 0, _, _ => none
  | Nat.succ fuel, acc, ts =>
      match ts with
      | Tok.comma :: ts2 => do
          let (e, rest) ← parseXor fuel ts2
          parseArrRest fuel (acc ++ [e]) rest
      | Tok.rbracket :: rest => some (Expr.arrLit acc, rest)
      | _ => none

end

/-- Parse of a whole formula text: tokenize, parse one expression, require
that every token is consumed (the source wraps the formula in a single
`return <formula>;` statement). -/
def parseFormula (s : String) : Option Expr := do
  let ts ← tokenize s.data
  let (e, rest) ← parseXor (8 * (ts.length + 1)) ts
  if rest = [] then some e else none

mutual

/-- Evaluation of a parsed expression against an identifier resolver `ρ`
(which models the scope the host builds from the parameters, the
destructured `Math` names and the globals).  Arithmetic and comparison are
defined on numeric operands; host coercion of other operand shapes is
outside the modelled fragment and mapped to a fault. -/
def evalExpr (ρ : List Char → Except Unit JSValue) : Expr → Except Unit JSValue
  | Expr.lit q => Except.ok (JSValue.num (JSNum.fin q))
  | Expr.boolLit b => Except.ok (JSValue.bool b)
  | Expr.nullLit => Except.ok JSValue.null
  | Expr.ident n => ρ n
  | Expr.neg e => do
      let v ← evalExpr ρ e
      match v with
      | JSValue.num x => Except.ok (JSValue.num (JSNum.jneg x))
      | _ => Except.error ()
  | Expr.add a b => do
      let va ← evalExpr ρ a
      let vb ← evalExpr ρ b
      match va, vb with
      | JSValue.num x, JSValue.num y => Except.ok (JSValue.num (JSNum.jadd x y))
      | _, _ => Except.error ()
  | Expr.sub a b => do
      let va ← evalExpr ρ a
      let vb ← evalExpr ρ b
      match va, vb with
      | JSValue.num x, JSValue.num y => Except.ok (JSValue.num (JSNum.jsub x y))
      | _, _ => Except.error ()
  | Expr.mul a b => do
      let va ← evalExpr ρ a
      let vb ← evalExpr ρ b
      match va, vb with
      | JSValue.num x, JSValue.num y => Except.ok (JSValue.num (JSNum.jmul x y))
      | _, _ => Except.error ()
  | Expr.div a b => do
      let va ← evalExpr ρ a
      let vb ← evalExpr ρ b
      match va, vb with
      | JSValue.num x, JSValue.num y => Except.ok (JSValue.num (JSNum.jdiv x y))
      | _, _ => Except.error ()
  | Expr.xor a b => do
      let va ← evalExpr ρ a
      let vb ← evalExpr ρ b
      match va, vb with
      | JSValue.num x, JSValue.num y => Except.ok (JSValue.num (JSNum.jxor x y))
      | _, _ => Except.error ()
  | Expr.less a b => do
      let va ← evalExpr ρ a
      let vb ← evalExpr ρ b
      match va, vb with
      | JSValue.num x, JSValue.num y => Except.ok (JSValue.bool (JSNum.jltB x y))
      | _, _ => Except.error ()
  | Expr.arrLit es => do
      let vs ← evalList ρ es
      Except.ok (JSValue.arr vs)

/-- Evaluation of the element list of an array literal, left to right,
propagating the first fault. -/
def evalList (ρ : List Char → Except Unit JSValue) :
    List Expr → Except Unit (List JSValue)
  | [] => Except.ok []
  | e :: es => do
      let v ← evalExpr ρ e
      let vs ← evalList ρ es
      Except.ok (v :: vs)

end

/-- The whitelisted function names as character lists. -/
def mathFunNamesChars : List (List Char) := mathFunNames.map String.data

/-- All whitelisted `Math` names as character lists. -/
def mathNamesChars : List (List Char) := mathNames.map String.data

/-- The identifier scope the constructed function body evaluates in: the
destructured `Math` names (resolving to `undefined` when a parameter named
`Math` shadows the global object), then the parameters bound positionally
to the call arguments with the last duplicate winning and missing
arguments defaulting to `undefined`, then the global bindings `undefined`,
`NaN` and `Infinity`; any other identifier raises the host
`ReferenceError`, modelled as a fault. -/
def resolveVar (params : List (List Char)) (args : List JSNum)
    (name : List Char) : Except Unit JSValue :=
  let mathShadowed := params.contains "Math".data
  if mathFunNamesChars.contains name then
    Except.ok (if mathShadowed then JSValue.undef else JSValue.mathFun ⟨name⟩)
  else if name = "PI".data || name = "E".data then
    Except.ok (if mathShadowed then JSValue.undef else JSValue.mathConst ⟨name⟩)
  else
    let argVals := args.map JSValue.num ++
      List.replicate (params.length - args.length) JSValue.undef
    match ((params.zip argVals).reverse).find? (fun p => p.1 = name) with
    | some p => Except.ok p.2
    | none =>
        if name = "undefined".data then Except.ok JSValue.undef
        else if name = "NaN".data then Except.ok (JSValue.num JSNum.nan)
        else if name = "Infinity".data then Except.ok (JSValue.num JSNum.posInf)
        else Except.error ()

/-- Model of the raw host evaluation performed by lines 3-14 of
`safeEvaluate` in the source: extract the keys and the values in pairing
order, build the function with `new Function(...keys, mathFormula)` (which
joins the keys with commas, parses them as a parameter list, and raises a
`SyntaxError` when that fails, when a parameter redeclares one of the
destructured `Math` names, or when the formula body does not parse), then
call it on the values.  A fault anywhere is the exception that the
source's `try` block catches. -/
def jsEvalRaw (formula : String) (values : List (String × JSNum)) :
    Except Unit JSValue :=
  let keys := values.map Prod.fst
  let args := values.map Prod.snd
  match parseParamChars (joinKeys (keys.map String.data)) with
  | none => Except.error ()
  | some params =>
      if params.any (fun p => mathNamesChars.contains p) then Except.error ()
      else
        match parseFormula formula with
        | none => Except.error ()
        | some e => evalExpr (resolveVar params args) e

/-- Embedding of `safeEvaluate` (lines 1-23 of the source): evaluate the
formula, return `"Error"` on any caught fault, convert a non-null result
of `typeof` `"object"` and a non-finite numeric result to `"Error"`, and
pass every other result through unchanged. -/
def safeEvaluate (formula : String) (values : List (String × JSNum)) : JSValue :=
  match jsEvalRaw formula values with
  | Except.error _ => JSValue.str "Error"
  | Except.ok result =>
      if JSValue.isObjectNonNull result then JSValue.str "Error"
      else if JSValue.isNonFiniteNumber result then JSValue.str "Error"
      else result

/-- Embedding of `{ ...values, [variableKey]: x }` on line 39 of the
source: when the key is already present its entry keeps its position and
takes the new value, otherwise the key is appended at the end. -/
def spreadSet (values : List (String × JSNum)) (key : String) (x : JSNum) :
    List (String × JSNum) :=
  if values.any (fun p => p.1 = key) then
    values.map (fun p => if p.1 = key then (p.1, x) else p)
  else values ++ [(key, x)]

/-- Lookup of a key in a binding list (JavaScript records have unique
keys, so first match suffices). -/
def lookupBinding : List (String × JSNum) → String → Option JSNum
  | [], _ => none
  | p :: rest, key => if p.1 = key then some p.2 else lookupBinding rest key

/-- The sample position of step `i`, exactly as line 37 of the source
computes it: `minX + (i / steps) * (maxX - minX)` in host arithmetic (so
`steps = 0` makes `i / steps` the host `0 / 0 = NaN`). -/
def xAt (minX maxX : JSNum) (steps i : ℕ) : JSNum :=
  JSNum.jadd minX
    (JSNum.jmul (JSNum.jdiv (JSNum.fin i) (JSNum.fin steps))
      (JSNum.jsub maxX minX))

/-- The filter `typeof y === 'number' && isFinite(y)` of line 41 of the
source (`Math.PI` / `Math.E` are finite numbers). -/
def isPlottable : JSValue → Bool
  | JSValue.num n => n.isFinite
  | JSValue.mathConst _ => true
  | _ => false

/-- The per-step binding of line 39: the caller's `values` with the
independent variable replaced by the step position. -/
def stepBinding (values : List (String × JSNum)) (variableKey : String)
    (minX maxX : JSNum) (steps i : ℕ) : List (String × JSNum) :=
  spreadSet values variableKey (xAt minX maxX steps i)

/-- The sample that step `i` contributes: the pair `(x, y)` when the
evaluation result passes the finite-number filter, nothing otherwise. -/
def stepPoint (formula : String) (values : List (String × JSNum))
    (variableKey : String) (minX maxX : JSNum) (steps i : ℕ) :
    Option (JSNum × JSValue) :=
  let x := xAt minX maxX steps i
  let y := safeEvaluate formula (stepBinding values variableKey minX maxX steps i)
  if isPlottable y then some (x, y) else none

/-- Embedding of `generateGraphPoints` (lines 25-46 of the source): the
loop `for (let i = 0; i <= steps; i++)` pushing `{x, y}` for every sample
that passes the filter, modelled as a left fold over `0, ..., steps` that
appends the surviving pairs. -/
def generateGraphPoints (formula : String) (values : List (String × JSNum))
    (variableKey : String) (minX maxX : JSNum) (steps : ℕ) :
    List (JSNum × JSValue) :=
  (List.range (steps + 1)).foldl
    (fun points i =>
      let x := xAt minX maxX steps i
      let tempValues := spreadSet values variableKey x
      let y := safeEvaluate formula tempValues
      if isPlottable y then points ++ [(x, y)] else points)
    []

section Theorems

/-- Claim C1: totality of the evaluator. For every expression string and
every binding, `safeEvaluate` either returns the failure marker `"Error"`
(this covers every internal fault: construction faults, resolution faults
and the filtered results) or passes the raw evaluation value through; no
exception reaches the caller. -/
theorem safeEvaluate_total (formula : String) (values : List (String × JSNum)) :
    safeEvaluate formula values = JSValue.str "Error" ∨
      ∃ w, jsEvalRaw formula values = Except.ok w ∧
        safeEvaluate formula values = w := by
  unfold safeEvaluate
  cases h : jsEvalRaw formula values with
  | error e => exact Or.inl rfl
  | ok w =>
      by_cases h1 : JSValue.isObjectNonNull w
      · exact Or.inl (by simp [h1])
      · by_cases h2 : JSValue.isNonFiniteNumber w
        · exact Or.inl (by simp [h1, h2])
        · exact Or.inr ⟨w, rfl, by simp [h1, h2]⟩

/-- Claim C2: whenever the raw evaluation result is a number that is not
finite (`NaN` or an infinity), `safeEvaluate` returns the failure
marker. -/
theorem safeEvaluate_nonfinite_to_error (formula : String)
    (values : List (String × JSNum)) (n : JSNum)
    (h : jsEvalRaw formula values = Except.ok (JSValue.num n))
    (hn : n.isFinite = false) :
    safeEvaluate formula values = JSValue.str "Error" := by
  unfold safeEvaluate
  rw [h]
  simp [JSValue.isObjectNonNull, JSValue.typeofStr, JSValue.isNonFiniteNumber, hn]

/-- Witness for C2: evaluating `1/0` against the empty binding produces the
host infinity, and `safeEvaluate` turns it into the failure marker. -/
theorem safeEvaluate_nonfinite_to_error_witness :
    jsEvalRaw "1/0" [] = Except.ok (JSValue.num JSNum.posInf) ∧
      safeEvaluate "1/0" [] = JSValue.str "Error" :=
  ⟨by with_unfolding_all rfl,
   safeEvaluate_nonfinite_to_error "1/0" [] JSNum.posInf
     (by with_unfolding_all rfl) (by decide)⟩

/-- Claim C5: a raw evaluation result that is an object (in this core, an
array) is converted to the failure marker, and `safeEvaluate` never
returns an array to its caller. -/
theorem safeEvaluate_never_object (formula : String)
    (values : List (String × JSNum)) :
    (∀ l, jsEvalRaw formula values = Except.ok (JSValue.arr l) →
        safeEvaluate formula values = JSValue.str "Error") ∧
      ∀ l, safeEvaluate formula values ≠ JSValue.arr l := by
  constructor
  · intro l h
    unfold safeEvaluate
    rw [h]
    simp [JSValue.isObjectNonNull, JSValue.typeofStr, JSValue.beq]
  · intro l
    unfold safeEvaluate
    cases h : jsEvalRaw formula values with
    | error e => simp
    | ok w =>
        by_cases h1 : JSValue.isObjectNonNull w
        · simp [h1]
        · by_cases h2 : JSValue.isNonFiniteNumber w
          · simp [h1, h2]
          · simp only [h1, h2, if_false, Bool.false_eq_true, if_neg]
            intro hw
            subst hw
            simp [JSValue.isObjectNonNull, JSValue.typeofStr, JSValue.beq] at h1

/-- Witness for C5: the formula `[1,2]` evaluates to an array and
`safeEvaluate` converts it to the failure marker. -/
theorem safeEvaluate_never_object_witness :
    jsEvalRaw "[1,2]" [] =
        Except.ok (JSValue.arr [JSValue.num (JSNum.fin 1), JSValue.num (JSNum.fin 2)]) ∧
      safeEvaluate "[1,2]" [] = JSValue.str "Error" :=
  ⟨by with_unfolding_all rfl,
   (safeEvaluate_never_object "[1,2]" []).1
      [JSValue.num (JSNum.fin 1), JSValue.num (JSNum.fin 2)]
      (by with_unfolding_all rfl)⟩

/-- Claim C10: a raw evaluation result that is a boolean, `null` or
`undefined` passes both classification checks of `safeEvaluate` and is
returned unchanged. -/
theorem safeEvaluate_passthrough_primitives (formula : String)
    (values : List (String × JSNum)) :
    (∀ b, jsEvalRaw formula values = Except.ok (JSValue.bool b) →
        safeEvaluate formula values = JSValue.bool b) ∧
      (jsEvalRaw formula values = Except.ok JSValue.null →
        safeEvaluate formula values = JSValue.null) ∧
      (jsEvalRaw formula values = Except.ok JSValue.undef →
        safeEvaluate formula values = JSValue.undef) := by
  refine ⟨?_, ?_, ?_⟩ <;> intro h1 <;> try intro h2
  · unfold safeEvaluate
    rw [h2]
    simp [JSValue.isObjectNonNull, JSValue.typeofStr, JSValue.isNonFiniteNumber]
  · unfold safeEvaluate
    rw [h1]
    simp [JSValue.isObjectNonNull, JSValue.typeofStr, JSValue.isNonFiniteNumber,
      JSValue.beq]
  · unfold safeEvaluate
    rw [h1]
    simp [JSValue.isObjectNonNull, JSValue.typeofStr, JSValue.isNonFiniteNumber]

/-- Witness for C10: a comparison yields a boolean that is passed through,
and the literals `null` and `undefined` are passed through as well. -/
theorem safeEvaluate_passthrough_primitives_witness :
    safeEvaluate "1<2" [] = JSValue.bool true ∧
      safeEvaluate "null" [] = JSValue.null ∧
      safeEvaluate "undefined" [] = JSValue.undef :=
  ⟨(safeEvaluate_passthrough_primitives "1<2" []).1 true (by with_unfolding_all rfl),
   (safeEvaluate_passthrough_primitives "null" []).2.1 (by with_unfolding_all rfl),
   (safeEvaluate_passthrough_primitives "undefined" []).2.2 (by with_unfolding_all rfl)⟩

end Theorems

section SamplerTheorems

/-- Claim C3 (evidence of the code bug): with `steps = 0` the loop body
computes `x = minX + (0 / 0) * (maxX - minX)`, and the host `0 / 0` is
`NaN`, so the single evaluated sample sits at `x = NaN` rather than at
`xMin`; for the constant formula `5` over `[0, 1]` the returned series is
`[(NaN, 5)]`, not `[(0, 5)]` as the specified steps-zero behavior
requires. -/
theorem generateGraphPoints_steps_zero_nan :
    xAt (JSNum.fin 0) (JSNum.fin 1) 0 0 = JSNum.nan ∧
      generateGraphPoints "5" [] "x" (JSNum.fin 0) (JSNum.fin 1) 0 =
        [(JSNum.nan, JSValue.num (JSNum.fin 5))] ∧
      generateGraphPoints "5" [] "x" (JSNum.fin 0) (JSNum.fin 1) 0 ≠
        [(JSNum.fin 0, JSValue.num (JSNum.fin 5))] := by
  refine ⟨by with_unfolding_all rfl, by with_unfolding_all rfl, ?_⟩
  with_unfolding_all decide

/-- Claim C4 (counterexample): sampling `x^2` over `[-2, 2]` with four
steps does not return the squares `{4, 1, 0, 1, 4}`, because the host
operator `^` is bitwise XOR, not exponentiation. -/
theorem xsq_sample_counterexample :
    generateGraphPoints "x^2" [] "x" (JSNum.fin (-2)) (JSNum.fin 2) 4 ≠
      [(JSNum.fin (-2), JSValue.num (JSNum.fin 4)),
       (JSNum.fin (-1), JSValue.num (JSNum.fin 1)),
       (JSNum.fin 0, JSValue.num (JSNum.fin 0)),
       (JSNum.fin 1, JSValue.num (JSNum.fin 1)),
       (JSNum.fin 2, JSValue.num (JSNum.fin 4))] := by
  with_unfolding_all decide

/-- Claim C4 (amended): sampling `x^2` over `[-2, 2]` with four steps
returns five points at `x ∈ {-2, -1, 0, 1, 2}` whose `y` values are the
host 32-bit `x XOR 2` results `{-4, -3, 2, 3, 0}`. -/
theorem xsq_sample_xor_values :
    generateGraphPoints "x^2" [] "x" (JSNum.fin (-2)) (JSNum.fin 2) 4 =
      [(JSNum.fin (-2), JSValue.num (JSNum.fin (-4))),
       (JSNum.fin (-1), JSValue.num (JSNum.fin (-3))),
       (JSNum.fin 0, JSValue.num (JSNum.fin 2)),
       (JSNum.fin 1, JSValue.num (JSNum.fin 3)),
       (JSNum.fin 2, JSValue.num (JSNum.fin 0))] := by
  with_unfolding_all rfl

end SamplerTheorems

section SamplerStructure

/-- Folding an accumulate-if-some body over a list collects exactly the
`filterMap` of the list, appended to the initial accumulator. -/
theorem foldl_append_filterMap {α β : Type} (g : α → Option β) :
    ∀ (l : List α) (acc : List β),
      l.foldl (fun pts i => pts ++ (g i).toList) acc = acc ++ l.filterMap g := by
  intro l
  induction l with
  | nil => intro acc; simp
  | cons a l ih =>
      intro acc
      cases h : g a with
      | none => simp [List.foldl_cons, h, ih, List.filterMap_cons]
      | some p => simp [List.foldl_cons, h, ih, List.filterMap_cons]

/-- The loop body of `generateGraphPoints` appends exactly the sample that
`stepPoint` describes. -/
theorem generateGraphPoints_body_eq (formula : String)
    (values : List (String × JSNum)) (variableKey : String)
    (minX maxX : JSNum) (steps : ℕ) (pts : List (JSNum × JSValue)) (i : ℕ) :
    (let x := xAt minX maxX steps i
     let tempValues := spreadSet values variableKey x
     let y := safeEvaluate formula tempValues
     if isPlottable y then pts ++ [(x, y)] else pts) =
      pts ++ (stepPoint formula values variableKey minX maxX steps i).toList := by
  simp only [stepPoint, stepBinding]
  by_cases h : isPlottable
      (safeEvaluate formula (spreadSet values variableKey (xAt minX maxX steps i)))
  · simp [h]
  · simp [h]

/-- The sampler is the `filterMap` of the per-step sample over the indices
`0, ..., steps` in order. -/
theorem generateGraphPoints_eq_filterMap (formula : String)
    (values : List (String × JSNum)) (variableKey : String)
    (minX maxX : JSNum) (steps : ℕ) :
    generateGraphPoints formula values variableKey minX maxX steps =
      (List.range (steps + 1)).filterMap
        (stepPoint formula values variableKey minX maxX steps) := by
  unfold generateGraphPoints
  have hb : (fun (pts : List (JSNum × JSValue)) i =>
      let x := xAt minX maxX steps i
      let tempValues := spreadSet values variableKey x
      let y := safeEvaluate formula tempValues
      if isPlottable y then pts ++ [(x, y)] else pts) =
      fun pts i =>
        pts ++ (stepPoint formula values variableKey minX maxX steps i).toList := by
    funext pts i
    exact generateGraphPoints_body_eq formula values variableKey minX maxX steps pts i
  rw [hb]
  have h := foldl_append_filterMap
    (stepPoint formula values variableKey minX maxX steps)
    (List.range (steps + 1)) []
  simpa using h

/-- Removing an element that the function maps to `none` does not change a
`filterMap`. -/
theorem filterMap_erase_none {α β : Type} [DecidableEq α] (g : α → Option β) :
    ∀ (l : List α) (a : α), g a = none →
      l.filterMap g = (l.erase a).filterMap g := by
  intro l
  induction l with
  | nil => intro a _; simp
  | cons x l ih =>
      intro a ha
      by_cases hx : x = a
      · subst hx
        simp [List.erase_cons_head, List.filterMap_cons, ha]
      · rw [List.erase_cons_tail]
        · simp only [List.filterMap_cons]
          cases h : g x with
          | none => exact ih a ha
          | some p => rw [ih a ha]
        · simp [hx]

end SamplerStructure

/-- Claim C6: for `steps ≥ 1` the sampler visits exactly the indices
`0, ..., steps` in increasing order (the series is the in-order
`filterMap` of the per-step sample over those indices, hence at most
`steps + 1` long), and on finite bounds the sample position of step `i` is
exactly `xMin + (i / steps) * (xMax - xMin)` in exact rational arithmetic
(`xMax < xMin` included). -/
theorem generateGraphPoints_grid (formula : String)
    (values : List (String × JSNum)) (variableKey : String)
    (minX maxX : JSNum) (steps : ℕ) (h : 1 ≤ steps) :
    generateGraphPoints formula values variableKey minX maxX steps =
      (List.range (steps + 1)).filterMap
        (stepPoint formula values variableKey minX maxX steps) ∧
      (generateGraphPoints formula values variableKey minX maxX steps).length ≤
        steps + 1 ∧
      ∀ i qa qb, minX = JSNum.fin qa → maxX = JSNum.fin qb →
        xAt minX maxX steps i =
          JSNum.fin (qa + ((i : ℚ) / ((steps : ℕ) : ℚ)) * (qb - qa)) := by
  refine ⟨generateGraphPoints_eq_filterMap formula values variableKey minX maxX steps,
    ?_, ?_⟩
  · rw [generateGraphPoints_eq_filterMap]
    calc ((List.range (steps + 1)).filterMap
            (stepPoint formula values variableKey minX maxX steps)).length
        ≤ (List.range (steps + 1)).length := List.length_filterMap_le _ _
      _ = steps + 1 := List.length_range _
  · intro i qa qb h1 h2
    subst h1
    subst h2
    have hs : ((steps : ℕ) : ℚ) ≠ 0 := by
      have : (0 : ℕ) < steps := h
      exact_mod_cast Nat.pos_iff_ne_zero.mp this
    simp [xAt, JSNum.jdiv, JSNum.jsub, JSNum.jneg, JSNum.jadd, JSNum.jmul, hs,
      sub_eq_add_neg]

/-- Witness for C6 at `steps = 2` over `[0, 1]`. -/
theorem generateGraphPoints_grid_witness :
    generateGraphPoints "x" [] "x" (JSNum.fin 0) (JSNum.fin 1) 2 =
      (List.range (2 + 1)).filterMap
        (stepPoint "x" [] "x" (JSNum.fin 0) (JSNum.fin 1) 2) ∧
      (generateGraphPoints "x" [] "x" (JSNum.fin 0) (JSNum.fin 1) 2).length ≤
        2 + 1 ∧
      ∀ i qa qb, JSNum.fin 0 = JSNum.fin qa → JSNum.fin 1 = JSNum.fin qb →
        xAt (JSNum.fin 0) (JSNum.fin 1) 2 i =
          JSNum.fin (qa + ((i : ℚ) / (((2 : ℕ) : ℕ) : ℚ)) * (qb - qa)) :=
  generateGraphPoints_grid "x" [] "x" (JSNum.fin 0) (JSNum.fin 1) 2 (by decide)

/-- Claim C7: a sample step whose evaluation fails or is non-finite
contributes nothing — the series equals the in-order collection over the
remaining indices, with no placeholder for the failed step. -/
theorem generateGraphPoints_drop_failed (formula : String)
    (values : List (String × JSNum)) (variableKey : String)
    (minX maxX : JSNum) (steps j : ℕ)
    (hnone : stepPoint formula values variableKey minX maxX steps j = none) :
    generateGraphPoints formula values variableKey minX maxX steps =
      ((List.range (steps + 1)).erase j).filterMap
        (stepPoint formula values variableKey minX maxX steps) := by
  rw [generateGraphPoints_eq_filterMap]
  exact filterMap_erase_none _ _ j hnone

/-- Witness for C7: sampling `1/x` over `[-1, 1]` with two steps drops the
`x = 0` sample (`1/0` is the host infinity, filtered out) and yields the
remaining two points. -/
theorem generateGraphPoints_drop_failed_witness :
    stepPoint "1/x" [] "x" (JSNum.fin (-1)) (JSNum.fin 1) 2 1 = none ∧
      generateGraphPoints "1/x" [] "x" (JSNum.fin (-1)) (JSNum.fin 1) 2 =
        ((List.range (2 + 1)).erase 1).filterMap
          (stepPoint "1/x" [] "x" (JSNum.fin (-1)) (JSNum.fin 1) 2) ∧
      generateGraphPoints "1/x" [] "x" (JSNum.fin (-1)) (JSNum.fin 1) 2 =
        [(JSNum.fin (-1), JSValue.num (JSNum.fin (-1))),
         (JSNum.fin 1, JSValue.num (JSNum.fin 1))] :=
  ⟨by with_unfolding_all rfl,
   generateGraphPoints_drop_failed "1/x" [] "x" (JSNum.fin (-1)) (JSNum.fin 1) 2 1
     (by with_unfolding_all rfl),
   by with_unfolding_all rfl⟩

section BindingTheorems

/-- Replacing a key in place leaves the lookup of every other key
unchanged. -/
theorem lookupBinding_map_replace (values : List (String × JSNum))
    (key : String) (x : JSNum) (k : String) (hk : k ≠ key) :
    lookupBinding (values.map (fun p => if p.1 = key then (p.1, x) else p)) k =
      lookupBinding values k := by
  have hk2 : ¬(key = k) := fun h => hk h.symm
  induction values with
  | nil => rfl
  | cons p rest ih =>
      by_cases hp : p.1 = key
      · have hpk : ¬(p.1 = k) := by rw [hp]; exact hk2
        simp [lookupBinding, hp, hpk, hk2, ih]
      · by_cases hpk : p.1 = k
        · simp [lookupBinding, hp, hpk, hk]
        · simp [lookupBinding, hp, hpk, ih]

/-- Appending an entry for another key leaves the lookup of `k`
unchanged. -/
theorem lookupBinding_append_other (values : List (String × JSNum))
    (key : String) (x : JSNum) (k : String) (hk : k ≠ key) :
    lookupBinding (values ++ [(key, x)]) k = lookupBinding values k := by
  have hk2 : ¬(key = k) := fun h => hk h.symm
  induction values with
  | nil => simp [lookupBinding, hk2]
  | cons p rest ih =>
      by_cases hpk : p.1 = k
      · simp [lookupBinding, hpk]
      · simp only [List.cons_append]
        simp [lookupBinding, hpk, ih]

/-- The spread `{ ...values, [key]: x }` resolves `key` to `x`. -/
theorem lookupBinding_spreadSet_self (values : List (String × JSNum))
    (key : String) (x : JSNum) :
    lookupBinding (spreadSet values key x) key = some x := by
  unfold spreadSet
  by_cases hmem : values.any (fun p => p.1 = key)
  · simp only [hmem, if_true]
    induction values with
    | nil => simp at hmem
    | cons p rest ih =>
        by_cases hp : p.1 = key
        · simp [lookupBinding, hp]
        · simp only [List.any_cons, Bool.or_eq_true, decide_eq_true_eq, hp,
            false_or] at hmem
          simp [lookupBinding, hp, ih (by simpa using hmem)]
  · simp only [hmem, if_false, Bool.false_eq_true]
    induction values with
    | nil => simp [lookupBinding]
    | cons p rest ih =>
        simp only [List.any_cons, Bool.or_eq_true, decide_eq_true_eq, not_or] at hmem
        simp only [List.cons_append]
        have := ih (by simp [hmem.2])
        simp [lookupBinding, hmem.1, this]

/-- The spread `{ ...values, [key]: x }` leaves every other key's value
unchanged. -/
theorem lookupBinding_spreadSet_other (values : List (String × JSNum))
    (key : String) (x : JSNum) (k : String) (hk : k ≠ key) :
    lookupBinding (spreadSet values key x) k = lookupBinding values k := by
  unfold spreadSet
  by_cases hmem : values.any (fun p => p.1 = key)
  · simp only [hmem, if_true]
    exact lookupBinding_map_replace values key x k hk
  · simp only [hmem, if_false, Bool.false_eq_true]
    exact lookupBinding_append_other values key x k hk

/-- Claim C8: the sampler never alters the caller's binding list (the
embedding passes it by value and builds a fresh spread per step); in the
binding used at step `i`, the independent variable is bound to the step
position and every other variable keeps its caller-supplied value. -/
theorem stepBinding_frame (values : List (String × JSNum))
    (variableKey : String) (minX maxX : JSNum) (steps i : ℕ) :
    (∀ k, k ≠ variableKey →
        lookupBinding (stepBinding values variableKey minX maxX steps i) k =
          lookupBinding values k) ∧
      lookupBinding (stepBinding values variableKey minX maxX steps i)
          variableKey = some (xAt minX maxX steps i) := by
  constructor
  · intro k hk
    exact lookupBinding_spreadSet_other values variableKey _ k hk
  · exact lookupBinding_spreadSet_self values variableKey _

/-- Witness for C8: with bindings `{a: 1}` and independent variable `x`,
the step-1 binding still maps `a` to `1` and maps `x` to the step
position. -/
theorem stepBinding_frame_witness :
    lookupBinding
        (stepBinding [("a", JSNum.fin 1)] "x" (JSNum.fin 0) (JSNum.fin 1) 2 1)
        "a" = lookupBinding [("a", JSNum.fin 1)] "a" ∧
      lookupBinding
          (stepBinding [("a", JSNum.fin 1)] "x" (JSNum.fin 0) (JSNum.fin 1) 2 1)
          "x" = some (xAt (JSNum.fin 0) (JSNum.fin 1) 2 1) :=
  ⟨(stepBinding_frame [("a", JSNum.fin 1)] "x" (JSNum.fin 0) (JSNum.fin 1) 2 1).1
      "a" (by decide),
   (stepBinding_frame [("a", JSNum.fin 1)] "x" (JSNum.fin 0) (JSNum.fin 1) 2 1).2⟩

end BindingTheorems

section ParamTheorems

/-- Splitting never produces an empty segment list. -/
theorem splitArgs_ne_nil (cs : List Char) : splitArgs cs ≠ [] := by
  induction cs with
  | nil => simp [splitArgs]
  | cons c cs ih =>
      by_cases h : c = ','
      · simp [splitArgs, h]
      · cases hs : splitArgs cs with
        | nil => exact absurd hs ih
        | cons s ss => simp [splitArgs, h, hs]

/-- Splitting distributes over a comma: the segments of `a ++ ',' ++ b`
are the segments of `a` followed by the segments of `b`. -/
theorem splitArgs_append_comma (a b : List Char) :
    splitArgs (a ++ ',' :: b) = splitArgs a ++ splitArgs b := by
  induction a with
  | nil => simp [splitArgs]
  | cons c a ih =>
      by_cases h : c = ','
      · simp only [List.cons_append, splitArgs, h, if_true, List.cons.injEq,
          true_and]
        exact ih
      · cases hs : splitArgs a with
        | nil => exact absurd hs (splitArgs_ne_nil a)
        | cons s ss =>
            simp only [List.cons_append, splitArgs, h, if_false, List.append_eq]
            rw [ih, hs]
            simp

/-- A comma-free text is a single segment. -/
theorem splitArgs_no_comma (cs : List Char) (h : ',' ∉ cs) :
    splitArgs cs = [cs] := by
  induction cs with
  | nil => rfl
  | cons c cs ih =>
      have hc : ¬(c = ',') := fun he => h (by simp [he])
      have hcs : ',' ∉ cs := fun hm => h (List.mem_cons_of_mem _ hm)
      simp [splitArgs, hc, ih hcs]

/-- A comma-free key always appears among the segments of the joined key
text, whatever the other keys contain. -/
theorem mem_splitArgs_joinKeys (keys : List (List Char)) (k : List Char)
    (hk : k ∈ keys) (hnc : ',' ∉ k) : k ∈ splitArgs (joinKeys keys) := by
  induction keys with
  | nil => simp at hk
  | cons k0 ks ih =>
      cases ks with
      | nil =>
          simp only [List.mem_singleton] at hk
          subst hk
          simp [joinKeys, splitArgs_no_comma k hnc]
      | cons k1 ks2 =>
          have hjoin : joinKeys (k0 :: k1 :: ks2) =
              k0 ++ ',' :: joinKeys (k1 :: ks2) := rfl
          rw [hjoin, splitArgs_append_comma]
          rcases List.mem_cons.mp hk with hk0 | hks
          · subst hk0
            exact List.mem_append_left _ (by simp [splitArgs_no_comma k hnc])
          · exact List.mem_append_right _ (ih hks)

/-- The whitelisted names are nonempty and comma-free. -/
theorem mathNames_plain : ∀ k ∈ mathNames, ',' ∉ k.data ∧ k.data ≠ [] := by
  decide

/-- A failed parameter-list parse makes the whole construction fault. -/
theorem jsEvalRaw_params_none (formula : String)
    (values : List (String × JSNum))
    (h : parseParamChars
        (joinKeys ((values.map Prod.fst).map String.data)) = none) :
    jsEvalRaw formula values = Except.error () := by
  simp only [jsEvalRaw, h]

/-- A parameter that redeclares a destructured `Math` name makes the
construction fault. -/
theorem jsEvalRaw_params_collision (formula : String)
    (values : List (String × JSNum)) (params : List (List Char))
    (h1 : parseParamChars
        (joinKeys ((values.map Prod.fst).map String.data)) = some params)
    (h2 : params.any (fun p => mathNamesChars.contains p) = true) :
    jsEvalRaw formula values = Except.error () := by
  simp only [jsEvalRaw, h1, h2, if_true]

/-- A caught raw fault is returned as the failure marker. -/
theorem safeEvaluate_of_raw_error (formula : String)
    (values : List (String × JSNum))
    (h : jsEvalRaw formula values = Except.error ()) :
    safeEvaluate formula values = JSValue.str "Error" := by
  unfold safeEvaluate
  rw [h]

/-- Claim C9 (amended): restricted to binding keys built from identifier
characters and commas, the construction faults — and `safeEvaluate`
returns the failure marker regardless of the expression text — whenever a
key collides with a whitelisted `Math` name, or the comma-join of the keys
fails to parse as a parameter list.  (A key that is merely not a valid
identifier need not fault: see the counterexample with the key
`"a,b"`.) -/
theorem keys_param_fault_to_error (formula : String)
    (values : List (String × JSNum))
    (hfrag : ((joinKeys ((values.map Prod.fst).map String.data)).all
        (fun c => isIdentChar c || c == ',')) = true)
    (h : (∃ k, k ∈ values.map Prod.fst ∧ k ∈ mathNames) ∨
        parseParamChars (joinKeys ((values.map Prod.fst).map String.data)) =
          none) :
    safeEvaluate formula values = JSValue.str "Error" := by
  apply safeEvaluate_of_raw_error
  rcases h with ⟨k, hk, hkm⟩ | hnone
  · cases hp : parseParamChars
        (joinKeys ((values.map Prod.fst).map String.data)) with
    | none => exact jsEvalRaw_params_none formula values hp
    | some params =>
        have hplain := mathNames_plain k hkm
        have hkd : k.data ∈ (values.map Prod.fst).map String.data :=
          List.mem_map_of_mem _ hk
        have hmem := mem_splitArgs_joinKeys _ k.data hkd hplain.1
        have hparams : k.data ∈ params := by
          unfold parseParamChars at hp
          by_cases hj : joinKeys ((values.map Prod.fst).map String.data) = []
          · rw [hj] at hmem
            simp [splitArgs] at hmem
            exact absurd hmem hplain.2
          · rw [if_neg hj] at hp
            by_cases hv : (if (splitArgs
                  (joinKeys ((values.map Prod.fst).map String.data))).getLast? =
                    some [] then
                  (splitArgs
                    (joinKeys ((values.map Prod.fst).map String.data))).dropLast
                else splitArgs
                  (joinKeys ((values.map Prod.fst).map String.data))).all
                isValidIdentChars
            · rw [if_pos hv] at hp
              injection hp with hp
              subst hp
              by_cases hlast : (splitArgs
                  (joinKeys ((values.map Prod.fst).map String.data))).getLast? =
                    some []
              · rw [if_pos hlast]
                have hne := splitArgs_ne_nil
                  (joinKeys ((values.map Prod.fst).map String.data))
                have hsplit := List.dropLast_concat_getLast hne
                rcases List.mem_append.mp (hsplit ▸ hmem) with hdl | hl
                · exact hdl
                · simp only [List.mem_singleton] at hl
                  have hlv : (splitArgs
                      (joinKeys ((values.map Prod.fst).map String.data))).getLast
                        hne = [] := by
                    have hgl := List.getLast?_eq_getLast
                      (splitArgs
                        (joinKeys ((values.map Prod.fst).map String.data))) hne
                    rw [hgl] at hlast
                    exact Option.some.inj hlast
                  rw [hlv] at hl
                  exact absurd hl hplain.2
              · rw [if_neg hlast]
                exact hmem
            · rw [if_neg hv] at hp
              exact absurd hp (by simp)
        have hany : params.any (fun p => mathNamesChars.contains p) = true := by
          refine List.any_eq_true.mpr ⟨k.data, hparams, ?_⟩
          have hmm : k.data ∈ mathNamesChars := List.mem_map_of_mem _ hkm
          exact List.elem_eq_true_of_mem hmm
        exact jsEvalRaw_params_collision formula values params hp hany
  · exact jsEvalRaw_params_none formula values hnone

/-- Witness for C9 (amended): the single key `sin` collides with the
`Math` whitelist and forces the failure marker. -/
theorem keys_param_fault_to_error_witness :
    safeEvaluate "x" [("sin", JSNum.fin 1)] = JSValue.str "Error" :=
  keys_param_fault_to_error "x" [("sin", JSNum.fin 1)] (by decide)
    (Or.inl ⟨"sin", by decide, by decide⟩)

/-- Claim C9 (counterexample to the original wording): the key `"a,b"` is
not a valid identifier, yet the host splits it into the two parameters
`a` and `b`, the construction succeeds, and evaluating the formula `a`
returns `5` rather than the failure marker. -/
theorem invalid_key_not_always_error :
    isValidIdentifierName "a,b" = false ∧
      safeEvaluate "a" [("a,b", JSNum.fin 5)] = JSValue.num (JSNum.fin 5) := by
  constructor
  · decide
  · with_unfolding_all rfl

end ParamTheorems
